import Mathlib

/-!
Verification of the atomic-swap client (`src/client.ts`, `src/utils.ts`).

The development shallowly embeds the swap engine: the pure transaction-plan
builder `getTransactions`, the `transpose` helper, and the `SwapClient`
state-machine operations (`loadSwap`, `prepareSwap`, `signSwap`,
`depositFunds`, `wait`, `finalizeSwap`, `cancelSwap`).  External
collaborators (the zkSync provider, the schnorr-musig primitive, ethers
utilities) are modelled as oracle parameters; everything the engine itself
computes is translated directly from the source.
-/

/-- States of a swap party (`SwapState` from `src/types.ts`, as used
throughout `src/client.ts`). -/
inductive SwapState
  | empty
  | prepared
  | signed
  | deposited
  | finalized
deriving DecidableEq, Repr

/-- One side of the swap terms: a token symbol and an amount
(`swapData.sell` / `swapData.buy`).  Ledger amounts are non-negative
big integers, modelled as `Nat`. -/
structure TokenAmount where
  token : String
  amount : Nat
deriving DecidableEq, Repr

/-- `swapData.withdrawType`: whether transaction 2 exits to L1 or stays on L2. -/
inductive WithdrawType
  | L1
  | L2
deriving DecidableEq, Repr

/-- `swapData.create2`: parameters of the deterministic escrow-account
derivation (creator address, salt, code hash). -/
structure Create2Data where
  creator : String
  salt : String
  hash : String
deriving DecidableEq, Repr

/-- The swap terms (`SwapData` from `src/types.ts`, with exactly the fields
the engine reads: `sell`, `buy`, `timeout`, `withdrawType`, `create2`). -/
structure SwapData where
  sell : TokenAmount
  buy : TokenAmount
  timeout : Nat
  withdrawType : WithdrawType
  create2 : Create2Data
deriving DecidableEq, Repr

/-- The `ethAuthData` object attached to the ChangePubKey transaction in
`getTransactions` (`utils.ts`): `{type: 'CREATE2', creatorAddress, saltArg,
codeHash}`. -/
structure EthAuthData where
  type : String
  creatorAddress : String
  saltArg : String
  codeHash : String
deriving DecidableEq, Repr

/-- A transaction descriptor as built by `getTransactions` (`utils.ts`).
The three JS object shapes become three constructors; field order follows
the source object literals.  The JS field `from` is rendered `fromAddr`
(`from` is a Lean keyword). -/
inductive SwapTx
  | changePubKey (accountId : Nat) (account : String) (newPkHash : String)
      (nonce : Nat) (feeTokenId : Nat) (fee : Nat)
      (validFrom : Nat) (validUntil : Nat) (ethAuthData : EthAuthData)
  | transfer (tokenId : Nat) (accountId : Nat) (fromAddr : String) (toAddr : String)
      (amount : Nat) (fee : Nat) (feeTokenId : Nat) (nonce : Nat)
      (validFrom : Nat) (validUntil : Nat)
  | withdraw (tokenId : Nat) (accountId : Nat) (fromAddr : String) (ethAddress : String)
      (amount : Nat) (fee : Nat) (feeTokenId : Nat) (nonce : Nat)
      (validFrom : Nat) (validUntil : Nat)
deriving DecidableEq, Repr

/-- The JS `type` tag of a transaction descriptor. -/
def SwapTx.txKind : SwapTx → String
  | .changePubKey _ _ _ _ _ _ _ _ _ => "ChangePubKey"
  | .transfer _ _ _ _ _ _ _ _ _ _ => "Transfer"
  | .withdraw _ _ _ _ _ _ _ _ _ _ => "Withdraw"

/-- The `nonce` field of a transaction descriptor. -/
def SwapTx.nonce : SwapTx → Nat
  | .changePubKey _ _ _ n _ _ _ _ _ => n
  | .transfer _ _ _ _ _ _ _ n _ _ => n
  | .withdraw _ _ _ _ _ _ _ n _ _ => n

/-- The `validFrom` field of a transaction descriptor. -/
def SwapTx.validFrom : SwapTx → Nat
  | .changePubKey _ _ _ _ _ _ vf _ _ => vf
  | .transfer _ _ _ _ _ _ _ _ vf _ => vf
  | .withdraw _ _ _ _ _ _ _ _ vf _ => vf

/-- The `validUntil` field of a transaction descriptor. -/
def SwapTx.validUntil : SwapTx → Nat
  | .changePubKey _ _ _ _ _ _ _ vu _ => vu
  | .transfer _ _ _ _ _ _ _ _ _ vu => vu
  | .withdraw _ _ _ _ _ _ _ _ _ vu => vu

/-- The `tokenId` field (absent on ChangePubKey, like the JS `undefined`). -/
def SwapTx.tokenId? : SwapTx → Option Nat
  | .changePubKey _ _ _ _ _ _ _ _ _ => none
  | .transfer tid _ _ _ _ _ _ _ _ _ => some tid
  | .withdraw tid _ _ _ _ _ _ _ _ _ => some tid

/-- The `amount` field (absent on ChangePubKey). -/
def SwapTx.amount? : SwapTx → Option Nat
  | .changePubKey _ _ _ _ _ _ _ _ _ => none
  | .transfer _ _ _ _ a _ _ _ _ _ => some a
  | .withdraw _ _ _ _ a _ _ _ _ _ => some a

/-- The recipient of a transaction: the `to` field of a Transfer, the
`ethAddress` field of a Withdraw; ChangePubKey has none. -/
def SwapTx.dest : SwapTx → Option String
  | .changePubKey _ _ _ _ _ _ _ _ _ => none
  | .transfer _ _ _ t _ _ _ _ _ _ => some t
  | .withdraw _ _ _ e _ _ _ _ _ _ => some e

/-- The `from` field of a Transfer or Withdraw (absent on ChangePubKey,
whose own address field is `account`). -/
def SwapTx.fromAddr? : SwapTx → Option String
  | .changePubKey _ _ _ _ _ _ _ _ _ => none
  | .transfer _ _ f _ _ _ _ _ _ _ => some f
  | .withdraw _ _ f _ _ _ _ _ _ _ => some f

/-- The `account` field (only ChangePubKey carries it; reading it on a
Transfer or Withdraw yields `undefined` in JS, hence `Option`). -/
def SwapTx.account : SwapTx → Option String
  | .changePubKey _ a _ _ _ _ _ _ _ => some a
  | .transfer _ _ _ _ _ _ _ _ _ _ => none
  | .withdraw _ _ _ _ _ _ _ _ _ _ => none

/-- The `ethAuthData` field (only ChangePubKey carries it). -/
def SwapTx.ethAuth : SwapTx → Option EthAuthData
  | .changePubKey _ _ _ _ _ _ _ _ e => some e
  | .transfer _ _ _ _ _ _ _ _ _ _ => none
  | .withdraw _ _ _ _ _ _ _ _ _ _ => none

/-- `zksync.utils.MAX_TIMESTAMP` (the zkSync SDK constant `4294967295`). -/
def MAX_TIMESTAMP : Nat := 4294967295

/-- `transpose` from `utils.ts`:
`matrix[0].map((_, index) => matrix.map((row) => row[index]))`.
On an empty matrix `matrix[0]` is `undefined` and calling `.map` on it
throws, hence the `Option` result; an out-of-range `row[index]` is
`undefined`, hence the `Option` entries.  Mapping over `matrix[0]` with
only the callback index used is rendered as a map over
`List.range matrix[0].length`. -/
def transpose {α : Type} (matrix : List (List α)) : Option (List (List (Option α))) :=
  match matrix with
  | [] => none
  | r :: _ => some ((List.range r.length).map (fun index => matrix.map (fun row => row[index]?)))

/-- The four fee quotes `getTransactions` obtains from
`syncProvider.getTransactionFee` (external oracle results). -/
structure Fees where
  transferSold : Nat
  transferBought : Nat
  changePubKey : Nat
  withdraw : Nat
deriving DecidableEq, Repr

/-- The result of `syncProvider.getState(address)` as used by the engine:
an optional account id, the account address, and the committed balances
map (`committed.balances`, totalised with absent entries read as 0). -/
structure AccountState where
  id : Option Nat
  address : String
  committedBalances : String → Nat

/-- Errors thrown by the engine.  Each constructor stands for one `throw`
site's message (several state-guard messages all express the spec's
Invalid-state condition and share `invalidState`); `typeError` stands for
the implicit JS TypeError of reading a field of `undefined`. -/
inductive SwapErr
  | invalidState
  | tooEarly
  | noFundsToFinalize
  | sharesInvalid
  | accountIdNotSet
  | typeError
deriving DecidableEq, Repr

/-- `getTransactions` from `utils.ts`.  The fee quotes, the fetched escrow
account state (`getState(swapAddress)`) and the token resolver
(`tokenSet.resolveTokenId`) are passed as oracle inputs; everything else is
translated literally from the five object literals.  `pubKeyHashStr`
stands for `hexlify(pubKeyHash).slice(2)`. -/
def getTransactions (swapData : SwapData) (clientAddress providerAddress : String)
    (pubKeyHashStr : String) (fees : Fees) (swapAccount : AccountState)
    (resolveTokenId : String → Nat) : Except SwapErr (List SwapTx) :=
  match swapAccount.id with
  | none => .error .accountIdNotSet
  | some accountId =>
    let buyTokenId := resolveTokenId swapData.buy.token
    let sellTokenId := resolveTokenId swapData.sell.token
    .ok [
      .changePubKey accountId swapAccount.address ("sync:" ++ pubKeyHashStr)
        0 sellTokenId fees.changePubKey 0 MAX_TIMESTAMP
        ⟨"CREATE2", clientAddress, swapData.create2.salt, swapData.create2.hash⟩,
      .transfer buyTokenId accountId swapAccount.address clientAddress
        swapData.buy.amount fees.transferBought buyTokenId 1 0 swapData.timeout,
      (if swapData.withdrawType = .L1 then
        .withdraw sellTokenId accountId swapAccount.address providerAddress
          swapData.sell.amount fees.withdraw sellTokenId 2 0 MAX_TIMESTAMP
      else
        .transfer sellTokenId accountId swapAccount.address providerAddress
          swapData.sell.amount fees.transferSold sellTokenId 2 0 MAX_TIMESTAMP),
      .transfer sellTokenId accountId swapAccount.address clientAddress
        swapData.sell.amount fees.transferSold sellTokenId 1
        (swapData.timeout + 1) MAX_TIMESTAMP,
      .transfer buyTokenId accountId swapAccount.address providerAddress
        0 fees.transferBought buyTokenId 2 (swapData.timeout + 1) MAX_TIMESTAMP ]

/-- A transaction together with its attachment slot: `formatTx` in
`utils.ts` mutates the JS object, attaching `(signature, pubKey)`; before
formatting the slot is empty. -/
structure SignedTx where
  tx : SwapTx
  signature : Option (String × String)
deriving DecidableEq, Repr

/-- Default used to render JS indexing `xs[i]` (which yields `undefined`
out of range); every plan the engine builds has five entries, so the
default is never reached on the flows the claims describe. -/
def defaultSignedTx : SignedTx :=
  { tx := .transfer 0 0 "" "" 0 0 0 0 0 0, signature := none }

/-- `formatTx(tx, signature, pubkey)` from `utils.ts`: attaches the
combined signature and the aggregate public key to the transaction. -/
def formatTx (t : SignedTx) (signature pubkey : String) : SignedTx :=
  { t with signature := some (signature, pubkey) }

/-- The fields of a `SwapClient` the claims observe: the state machine
value, the bound swap terms (`undefined` before `prepareSwap`/`loadSwap`),
and the transaction plan. -/
structure Party where
  state : SwapState
  swapData : Option SwapData
  transactions : List SignedTx
deriving DecidableEq, Repr

/-- The opaque schnorr-musig signer (`MusigSigner`), modelled as an oracle:
`precommitments` is `computePrecommitments()`, `combineCommitments` is
`receivePrecommitments(...)`, `pubkey` is `computePubkey()`, `sign` takes
the signable bytes and the transaction index, `combineShares` combines the
two parties' shares for an index, and `verify` checks a combined signature
against signable bytes. -/
structure MusigOracle where
  precommitments : List String
  combineCommitments : List (List (Option String)) → List String
  pubkey : String
  sign : String → Nat → String
  combineShares : List String → Nat → String
  verify : String → String → Bool

/-- The external results `prepareSwap` consumes: the fresh signer, the
provider's precommitments, the escrow account state fetched for
`getTransactions`, the fee quotes, and the token resolver. -/
structure PrepareEnv where
  musig : MusigOracle
  providerPrecommitments : List String
  swapAccount : AccountState
  fees : Fees
  resolveTokenId : String → Nat

/-- `SwapClient.loadSwap` (`client.ts` lines 27-37): in state `empty`,
binds the terms and the previously signed plan, reads the escrow address
from `signedTransactions[0].account`, fetches that account's committed
balance of the sell token (oracle `balances`), and infers the state by
`swapData.sell.amount.gt(balance)`. -/
def loadSwap (p : Party) (swapData : SwapData) (signedTransactions : List SignedTx)
    (balances : Option String → String → Nat) : Except SwapErr Unit × Party :=
  if p.state ≠ .empty then (.error .invalidState, p)
  else
    let swapAddress := (signedTransactions.getD 0 defaultSignedTx).tx.account
    let balance := balances swapAddress swapData.sell.token
    (.ok (),
     { state := if balance < swapData.sell.amount then .signed else .deposited,
       swapData := some swapData,
       transactions := signedTransactions })

/-- `SwapClient.prepareSwap` (`client.ts` lines 52-100): in state `empty`,
binds the terms, creates the signer, runs the precommitment round
(combining the two precommitment vectors positionally via `transpose`),
derives the CREATE2 escrow info, provokes account creation if needed
(an external effect), builds the plan with `getTransactions`, and moves to
`prepared`.  The CREATE2 derivation and the 0-transfer touch only external
or untracked fields; if `getTransactions` throws, the terms are already
bound (`this.swapData = data` precedes it) but the state is unchanged. -/
def prepareSwap (p : Party) (data : SwapData) (clientAddress providerAddress : String)
    (pubKeyHashStr : String) (env : PrepareEnv) :
    Except SwapErr (List String × List String) × Party :=
  if p.state ≠ .empty then (.error .invalidState, p)
  else
    let precommitments := env.musig.precommitments
    let commitments := env.musig.combineCommitments
      ((transpose [env.providerPrecommitments, precommitments]).getD [])
    match getTransactions data clientAddress providerAddress pubKeyHashStr
        env.fees env.swapAccount env.resolveTokenId with
    | .error e => (.error e, { p with swapData := some data })
    | .ok txs =>
      (.ok (precommitments, commitments),
       { state := .prepared,
         swapData := some data,
         transactions := txs.map (fun t => { tx := t, signature := none }) })

/-- The combined signature the client computes for transaction index `i`
during `signSwap`: `receiveSignatureShares([data.shares[i], share], i)`
where `share = sign(privateKey, bytes, i)`. -/
def combinedSigAt (m : MusigOracle) (sb : SignedTx → String) (shs : List String)
    (i : Nat) (t : SignedTx) : String :=
  m.combineShares [shs.getD i "", m.sign (sb t) i] i

/-- Whether the combined signature for transaction index `i` verifies
against that transaction's signable bytes (`signer.verify(bytes, signature)`
in `client.ts` line 125). -/
def verifiesAt (m : MusigOracle) (sb : SignedTx → String) (shs : List String)
    (i : Nat) (t : SignedTx) : Bool :=
  m.verify (sb t) (combinedSigAt m sb shs i t)

/-- The `forEach` body of `signSwap` (`client.ts` lines 118-129), starting
at index `i`: for each transaction compute the signable bytes, the local
share, and the combined signature; on successful verification format the
transaction and continue, otherwise abort (the JS `throw` leaves the
remaining transactions untouched and discards the local `shares`).
Returns the resulting transaction list, the accumulated shares, and
whether every signature verified. -/
def signLoop (m : MusigOracle) (sb : SignedTx → String) (shs : List String)
    (pk : String) : Nat → List SignedTx → List SignedTx × List String × Bool
  | _, [] => ([], [], true)
  | i, t :: rest =>
    if verifiesAt m sb shs i t then
      let r := signLoop m sb shs pk (i + 1) rest
      (formatTx t (combinedSigAt m sb shs i t) pk :: r.1, m.sign (sb t) i :: r.2.1, r.2.2)
    else
      (t :: rest, [m.sign (sb t) i], false)

/-- `SwapClient.signSwap` (`client.ts` lines 109-133): in state `prepared`,
runs the commitment round (`receiveCommitments` mutates only the opaque
signer, via `transpose([data.commitments, this.commitments])`), then signs
and verifies every transaction; on success attaches all signatures and
moves to `signed`, on a failed verification throws with the transactions
formatted so far. -/
def signSwap (p : Party) (m : MusigOracle) (sb : SignedTx → String)
    (_dataCommitments dataShares : List String) :
    Except SwapErr (List String) × Party :=
  if p.state ≠ .prepared then (.error .invalidState, p)
  else
    let musigPubkey := m.pubkey
    let r := signLoop m sb dataShares musigPubkey 0 p.transactions
    if r.2.2 then (.ok r.2.1, { p with transactions := r.1, state := .signed })
    else (.error .sharesInvalid, { p with transactions := r.1 })

/-- `SwapClient.depositFunds` (`client.ts` lines 136-143): in state
`signed`, deposits the sell amount (external `this.deposit` call, whose
hash is an oracle input) and moves to `deposited`. -/
def depositFunds (p : Party) (depositHash : String) : Except SwapErr String × Party :=
  if p.state ≠ .signed then (.error .invalidState, p)
  else
    match p.swapData with
    | none => (.error .typeError, p)
    | some _ => (.ok depositHash, { p with state := .deposited })

/-- Outcome of the `Promise.race` in `wait`: either the transaction
notification resolved first, or the timer resolved first (with `null`). -/
inductive RaceOutcome
  | event
  | timedOut
deriving DecidableEq, Repr

/-- `SwapClient.wait` (`client.ts` lines 149-163): in state `deposited`,
hashes the signable bytes of `transactions[1]`, races the ledger
notification for that hash against a timer for
`swapData.timeout * 1000 - Date.now()` milliseconds, and on a non-null
result moves to `finalized` and returns `true`; a timer win returns
`false` with no state change.  `sha256h` models `utils.sha256` plus the
hash-prefix rewrite; `race` models the `Promise.race`. -/
def wait (p : Party) (now : Int) (sb : SignedTx → String) (sha256h : String → String)
    (race : String → Int → RaceOutcome) : Except SwapErr Bool × Party :=
  if p.state ≠ .deposited then (.error .invalidState, p)
  else
    match p.swapData with
    | none => (.error .typeError, p)
    | some d =>
      let hash := sha256h (sb (p.transactions.getD 1 defaultSignedTx))
      let timeoutMs : Int := (d.timeout : Int) * 1000 - now
      match race hash timeoutMs with
      | .event => (.ok true, { p with state := .finalized })
      | .timedOut => (.ok false, p)

/-- `SwapClient.finalizeSwap` (`client.ts` lines 166-176): reads the escrow
account's committed balance of the buy token (oracle input), throws unless
the state is `deposited` and the balance covers `buy.amount`, then submits
`[transactions[0]]` and `[transactions[1]]` as two `sendBatch` calls (each
returned inner list is one atomic batch, per the base class's batch
submission) and moves to `finalized`. -/
def finalizeSwap (p : Party) (escrowBuyBalance : Nat) :
    Except SwapErr (List (List SignedTx)) × Party :=
  match p.swapData with
  | none => (.error .typeError, p)
  | some d =>
    if p.state ≠ .deposited ∨ escrowBuyBalance < d.buy.amount then
      (.error .noFundsToFinalize, p)
    else
      (.ok [[p.transactions.getD 0 defaultSignedTx], [p.transactions.getD 1 defaultSignedTx]],
       { p with state := .finalized })

/-- `SwapClient.cancelSwap` (`client.ts` lines 179-190): throws `tooEarly`
whenever `Date.now() < swapData.timeout * 1000` (before any state check),
then throws unless the state is `deposited`, then submits
`[transactions[0]]` and `[transactions[3]]` as two `sendBatch` calls and
moves to `finalized`. -/
def cancelSwap (p : Party) (now : Int) :
    Except SwapErr (List (List SignedTx)) × Party :=
  match p.swapData with
  | none => (.error .typeError, p)
  | some d =>
    if now < (d.timeout : Int) * 1000 then (.error .tooEarly, p)
    else if p.state ≠ .deposited then (.error .invalidState, p)
    else
      (.ok [[p.transactions.getD 0 defaultSignedTx], [p.transactions.getD 3 defaultSignedTx]],
       { p with state := .finalized })

/-- The `(creatorAddress, saltArg, codeHash)` triple `prepareSwap` passes
to `zksync.utils.getCREATE2AddressAndSalt` to derive the escrow address
(`client.ts` lines 66-70). -/
def create2Triple (data : SwapData) : String × String × String :=
  (data.create2.creator, data.create2.salt, data.create2.hash)

/-- The `(creatorAddress, saltArg, codeHash)` triple inside a ChangePubKey
transaction's `ethAuthData`. -/
def ethAuthTriple (t : SwapTx) : Option (String × String × String) :=
  (t.ethAuth).map (fun e => (e.creatorAddress, e.saltArg, e.codeHash))

/-- The nonce a plan assigns to transaction index `k` (0 when out of
range; every index the ledger model accepts is in range). -/
def nonceAt (plan : List SwapTx) (k : Nat) : Nat :=
  (plan[k]?.map SwapTx.nonce).getD 0

/-- The `validFrom` a plan assigns to transaction index `k`. -/
def validFromAt (plan : List SwapTx) (k : Nat) : Nat :=
  (plan[k]?.map SwapTx.validFrom).getD 0

/-- The `validUntil` a plan assigns to transaction index `k`. -/
def validUntilAt (plan : List SwapTx) (k : Nat) : Nat :=
  (plan[k]?.map SwapTx.validUntil).getD 0

/-- A mock ledger for the escrow account, as the spec's §4.2 rationale
describes it: a transaction of the plan is accepted at time `t` only if
its nonce has not been consumed before and `t` lies inside its
`[validFrom, validUntil]` window; accepting it consumes its nonce.
`LedgerReach plan acc cons` holds when, by some order of submissions at
arbitrary times, exactly the plan indices in `acc` were accepted and the
nonces in `cons` were consumed. -/
inductive LedgerReach (plan : List SwapTx) : List Nat → List Nat → Prop
  | init : LedgerReach plan [] []
  | step (acc cons : List Nat) (k t : Nat) (hk : k < plan.length)
      (hnonce : nonceAt plan k ∉ cons)
      (hfrom : validFromAt plan k ≤ t)
      (huntil : t ≤ validUntilAt plan k)
      (hprev : LedgerReach plan acc cons) :
      LedgerReach plan (k :: acc) (nonceAt plan k :: cons)

/-- C1: for every swap terms value and every escrow account the ledger
knows (an account id is assigned), `getTransactions` returns exactly 5
transaction descriptors in the fixed order: index 0 a ChangePubKey with
nonce 0 and validity `[0, MAX_TIMESTAMP]`; index 1 a Transfer of the buy
token from the escrow account to the client for `buy.amount` with nonce 1
and validity `[0, timeout]`; index 2 a Withdraw (when `withdrawType = L1`)
or Transfer of the sell token to the provider for `sell.amount` with
nonce 2 and validity `[0, MAX_TIMESTAMP]`; index 3 a Transfer of the sell
token back to the client for `sell.amount` with nonce 1 and validity
`[timeout + 1, MAX_TIMESTAMP]`; index 4 a zero-amount Transfer of the buy
token to the provider with nonce 2 and validity
`[timeout + 1, MAX_TIMESTAMP]`. -/
theorem c1_planShape (d : SwapData) (clientAddress providerAddress pubKeyHashStr : String)
    (fees : Fees) (aid : Nat) (addr : String) (bal : String → Nat)
    (resolve : String → Nat) :
    ∃ plan : List SwapTx,
      getTransactions d clientAddress providerAddress pubKeyHashStr fees
        ⟨some aid, addr, bal⟩ resolve = .ok plan ∧
      plan.length = 5 ∧
      (∃ t0, plan[0]? = some t0 ∧ t0.txKind = "ChangePubKey" ∧ t0.nonce = 0 ∧
        t0.validFrom = 0 ∧ t0.validUntil = MAX_TIMESTAMP) ∧
      (∃ t1, plan[1]? = some t1 ∧ t1.txKind = "Transfer" ∧
        t1.tokenId? = some (resolve d.buy.token) ∧ t1.fromAddr? = some addr ∧
        t1.dest = some clientAddress ∧ t1.amount? = some d.buy.amount ∧
        t1.nonce = 1 ∧ t1.validFrom = 0 ∧ t1.validUntil = d.timeout) ∧
      (∃ t2, plan[2]? = some t2 ∧
        t2.txKind = (if d.withdrawType = .L1 then "Withdraw" else "Transfer") ∧
        t2.tokenId? = some (resolve d.sell.token) ∧ t2.fromAddr? = some addr ∧
        t2.dest = some providerAddress ∧ t2.amount? = some d.sell.amount ∧
        t2.nonce = 2 ∧ t2.validFrom = 0 ∧ t2.validUntil = MAX_TIMESTAMP) ∧
      (∃ t3, plan[3]? = some t3 ∧ t3.txKind = "Transfer" ∧
        t3.tokenId? = some (resolve d.sell.token) ∧ t3.fromAddr? = some addr ∧
        t3.dest = some clientAddress ∧ t3.amount? = some d.sell.amount ∧
        t3.nonce = 1 ∧ t3.validFrom = d.timeout + 1 ∧ t3.validUntil = MAX_TIMESTAMP) ∧
      (∃ t4, plan[4]? = some t4 ∧ t4.txKind = "Transfer" ∧
        t4.tokenId? = some (resolve d.buy.token) ∧ t4.fromAddr? = some addr ∧
        t4.dest = some providerAddress ∧ t4.amount? = some 0 ∧
        t4.nonce = 2 ∧ t4.validFrom = d.timeout + 1 ∧ t4.validUntil = MAX_TIMESTAMP) := by
  refine ⟨_, rfl, ?_⟩
  cases hw : d.withdrawType <;>
    simp [getTransactions, hw, SwapTx.txKind, SwapTx.nonce, SwapTx.validFrom,
      SwapTx.validUntil, SwapTx.tokenId?, SwapTx.amount?, SwapTx.dest, SwapTx.fromAddr?]

/-- The accepted plan indices of any reachable mock-ledger state carry
pairwise distinct nonces, and every accepted nonce is recorded as
consumed. -/
theorem ledgerReach_nonces_nodup {plan : List SwapTx} {acc cons : List Nat}
    (h : LedgerReach plan acc cons) :
    (acc.map (nonceAt plan)).Nodup ∧ ∀ n ∈ acc.map (nonceAt plan), n ∈ cons := by
  induction h with
  | init => simp
  | step acc cons k t hk hnonce hfrom huntil hprev ih =>
    simp only [List.map_cons]
    constructor
    · exact List.nodup_cons.mpr ⟨fun hmem => hnonce (ih.2 _ hmem), ih.1⟩
    · intro n hn
      rcases List.mem_cons.mp hn with h1 | h2
      · exact h1 ▸ List.mem_cons_self _ _
      · exact List.mem_cons_of_mem _ (ih.2 _ h2)

/-- C2: against a ledger that accepts a transaction only if its nonce is
unconsumed and the submission time lies in its validity window, no
reachable state has accepted both transactions 1 and 2 and both
transactions 3 and 4 of the plan `getTransactions` builds, whatever the
submission order and times: indices 1 and 3 share nonce 1, so the second
of them is always rejected. -/
theorem c2_nonceExclusive (d : SwapData) (clientAddress providerAddress pubKeyHashStr : String)
    (fees : Fees) (acct : AccountState) (resolve : String → Nat)
    (plan : List SwapTx) (acc cons : List Nat)
    (hplan : getTransactions d clientAddress providerAddress pubKeyHashStr fees
      acct resolve = .ok plan)
    (hreach : LedgerReach plan acc cons) :
    ¬((1 ∈ acc ∧ 2 ∈ acc) ∧ (3 ∈ acc ∧ 4 ∈ acc)) := by
  rintro ⟨⟨h1, _⟩, h3, _⟩
  have hn13 : nonceAt plan 1 = nonceAt plan 3 ∧ (1 : Nat) ≠ 3 := by
    unfold getTransactions at hplan
    rcases hacct : acct.id with _ | aid <;> rw [hacct] at hplan
    · exact absurd hplan (by simp)
    · simp only [Except.ok.injEq] at hplan
      subst hplan
      refine ⟨?_, by omega⟩
      simp [nonceAt, SwapTx.nonce]
  have hnd := (ledgerReach_nonces_nodup hreach).1
  exact hn13.2 (List.inj_on_of_nodup_map hnd h1 h3 hn13.1)

/-- Concrete swap terms used as evaluation input: the CREATE2 creator is
the deployer contract's address, distinct from the client wallet address,
exactly as the repository's test suite sets it up. -/
def dEx : SwapData :=
  { sell := ⟨"ETH", 1000⟩, buy := ⟨"DAI", 5000⟩, timeout := 600,
    withdrawType := .L2, create2 := ⟨"0xdeployer", "0xsalt", "0xcodehash"⟩ }

/-- Concrete fee quotes for evaluation. -/
def feesEx : Fees := ⟨1, 2, 3, 4⟩

/-- Concrete escrow account state (id assigned) for evaluation. -/
def acctEx : AccountState := ⟨some 7, "0xswap", fun _ => 0⟩

/-- Concrete token resolver for evaluation. -/
def resolveEx : String → Nat := fun t => if t = "ETH" then 0 else 1

/-- The concrete five-transaction plan built from the evaluation inputs. -/
def planEx : List SwapTx :=
  (getTransactions dEx "0xclient" "0xprovider" "pkh" feesEx acctEx resolveEx).toOption.getD []

/-- The concrete plan wrapped as unformatted signed-transaction slots. -/
def sTxsEx : List SignedTx := planEx.map (fun t => { tx := t, signature := none })

/-- A concrete party in state `deposited` holding the evaluation plan. -/
def pDepEx : Party := { state := .deposited, swapData := some dEx, transactions := sTxsEx }

/-- C2 witness: the ledger invariant instantiated at the concrete plan and
the initial (empty) ledger state. -/
theorem c2_witness :
    ¬(((1 : Nat) ∈ ([] : List Nat) ∧ (2 : Nat) ∈ ([] : List Nat)) ∧
      ((3 : Nat) ∈ ([] : List Nat) ∧ (4 : Nat) ∈ ([] : List Nat))) :=
  c2_nonceExclusive dEx "0xclient" "0xprovider" "pkh" feesEx acctEx resolveEx
    planEx [] [] rfl LedgerReach.init

/-- C3: evaluation at the failing input.  The ChangePubKey transaction's
`ethAuthData` carries `(clientAddress, salt, hash)` — `getTransactions`
puts the CLIENT address in `creatorAddress` — while the CREATE2
escrow-address derivation in `prepareSwap` uses
`(swapData.create2.creator, salt, hash)`; whenever the configured creator
differs from the client wallet address the two triples differ, so the
key-registration transaction is not authorized via the same
deterministic-creation parameters as the escrow address. -/
theorem c3_authTripleMismatch :
    (planEx.head?.bind ethAuthTriple) = some ("0xclient", "0xsalt", "0xcodehash") ∧
    create2Triple dEx = ("0xdeployer", "0xsalt", "0xcodehash") ∧
    (planEx.head?.bind ethAuthTriple) ≠ some (create2Triple dEx) := by
  refine ⟨rfl, rfl, ?_⟩
  decide

/-- C4 (amended): in state Deposited with sufficient escrow balance,
finalizeSwap submits transaction 0 and then transaction 1 as two
consecutive single-transaction batches (not one combined atomic batch) and
then sets state to Finalized; in state Deposited at or after the timeout,
cancelSwap submits transaction 0 and then transaction 3 as two consecutive
single-transaction batches and then sets state to Finalized. -/
theorem c4_twoSingletonBatches (p : Party) (d : SwapData) (bal : Nat) (now : Int)
    (hd : p.swapData = some d) (hs : p.state = .deposited) :
    (d.buy.amount ≤ bal →
      finalizeSwap p bal =
        (.ok [[p.transactions.getD 0 defaultSignedTx], [p.transactions.getD 1 defaultSignedTx]],
         { p with state := .finalized })) ∧
    ((d.timeout : Int) * 1000 ≤ now →
      cancelSwap p now =
        (.ok [[p.transactions.getD 0 defaultSignedTx], [p.transactions.getD 3 defaultSignedTx]],
         { p with state := .finalized })) := by
  constructor
  · intro h
    unfold finalizeSwap
    simp only [hd]
    simp only [hs]
    have hc : ¬(SwapState.deposited ≠ SwapState.deposited ∨ bal < d.buy.amount) := by
      rintro (hcon | hcon)
      · exact hcon rfl
      · omega
    rw [if_neg hc]
  · intro h
    unfold cancelSwap
    simp only [hd]
    have hc1 : ¬(now < (d.timeout : Int) * 1000) := by omega
    rw [if_neg hc1]
    simp only [hs]
    have hc2 : ¬(SwapState.deposited ≠ SwapState.deposited) := by simp
    rw [if_neg hc2]

/-- C4 witness: both amended branches evaluated at the concrete deposited
party (balance 5000 covers the buy amount; time 600000 ms is the timeout). -/
theorem c4_witness :
    finalizeSwap pDepEx 5000 =
      (.ok [[sTxsEx.getD 0 defaultSignedTx], [sTxsEx.getD 1 defaultSignedTx]],
       { pDepEx with state := .finalized }) ∧
    cancelSwap pDepEx 600000 =
      (.ok [[sTxsEx.getD 0 defaultSignedTx], [sTxsEx.getD 3 defaultSignedTx]],
       { pDepEx with state := .finalized }) :=
  ⟨(c4_twoSingletonBatches pDepEx dEx 5000 600000 rfl rfl).1 (by decide),
   (c4_twoSingletonBatches pDepEx dEx 5000 600000 rfl rfl).2 (by decide)⟩

/-- C4 counterexample: at a concrete deposited party with sufficient
balance, finalizeSwap performs two batch submissions (each holding one
transaction), not the single atomic batch of transactions 0 and 1 the
claim states. -/
theorem c4_cex :
    ((finalizeSwap pDepEx 5000).1.toOption.getD []).length = 2 ∧ (2 : Nat) ≠ 1 :=
  ⟨rfl, by decide⟩

/-- C6 (amended): for every party state with swap terms bound, if the
current time is strictly before `timeout` then cancelSwap fails with the
too-early (Timing-violation) error condition — not the Invalid-state
condition — and performs no side effect. -/
theorem c6_tooEarlyGuard (p : Party) (d : SwapData) (now : Int)
    (hd : p.swapData = some d) (h : now < (d.timeout : Int) * 1000) :
    cancelSwap p now = (.error .tooEarly, p) := by
  unfold cancelSwap
  simp only [hd]
  rw [if_pos h]

/-- C6 counterexample: in state Deposited strictly before the timeout,
cancelSwap fails with the too-early error, which differs from the
Invalid-state error condition the claim names. -/
theorem c6_cex :
    cancelSwap pDepEx 0 = (.error .tooEarly, pDepEx) ∧
    SwapErr.tooEarly ≠ SwapErr.invalidState :=
  ⟨rfl, by decide⟩

/-- C6 witness: the too-early guard evaluated at a concrete party in state
`empty` at time 5 ms, before the 600000 ms timeout. -/
theorem c6_witness :
    cancelSwap { state := .empty, swapData := some dEx, transactions := [] } 5 =
      (.error .tooEarly, { state := .empty, swapData := some dEx, transactions := [] }) :=
  c6_tooEarlyGuard _ dEx 5 rfl (by decide)

/-- The `forEach` of `signSwap` preserves the number of transactions. -/
theorem signLoop_length (m : MusigOracle) (sb : SignedTx → String) (shs : List String)
    (pk : String) (ts : List SignedTx) : ∀ i, (signLoop m sb shs pk i ts).1.length = ts.length := by
  induction ts with
  | nil => intro i; rfl
  | cons t rest ih =>
    intro i
    cases hv : verifiesAt m sb shs i t with
    | false => simp [signLoop, hv]
    | true => simp [signLoop, hv, ih]

/-- If the `forEach` of `signSwap` ran to completion, every transaction's
combined signature verified. -/
theorem signLoop_ok_all (m : MusigOracle) (sb : SignedTx → String) (shs : List String)
    (pk : String) (ts : List SignedTx) :
    ∀ i, (signLoop m sb shs pk i ts).2.2 = true →
      ∀ j (t : SignedTx), ts[j]? = some t → verifiesAt m sb shs (i + j) t = true := by
  induction ts with
  | nil => intro i _ j t hjt; simp at hjt
  | cons t0 rest ih =>
    intro i hok j t hjt
    cases hv : verifiesAt m sb shs i t0 with
    | false => simp [signLoop, hv] at hok
    | true =>
      cases j with
      | zero =>
        simp only [List.getElem?_cons_zero, Option.some.injEq] at hjt
        subst hjt
        simpa using hv
      | succ j' =>
        have hok' : (signLoop m sb shs pk (i + 1) rest).2.2 = true := by
          simpa [signLoop, hv] using hok
        have hrest : rest[j']? = some t := by simpa using hjt
        have h2 : i + (j' + 1) = (i + 1) + j' := by omega
        rw [h2]
        exact ih (i + 1) hok' j' t hrest

/-- Every transaction at or after a failing index is left untouched by the
`forEach` of `signSwap` (the JS `throw` aborts the iteration). -/
theorem signLoop_keep (m : MusigOracle) (sb : SignedTx → String) (shs : List String)
    (pk : String) (ts : List SignedTx) :
    ∀ i j jf (tf : SignedTx), jf ≤ j → ts[jf]? = some tf →
      verifiesAt m sb shs (i + jf) tf = false →
      (signLoop m sb shs pk i ts).1[j]? = ts[j]? := by
  induction ts with
  | nil => intro i j jf tf hle hjf hfail; simp at hjf
  | cons t0 rest ih =>
    intro i j jf tf hle hjf hfail
    cases hv : verifiesAt m sb shs i t0 with
    | false => simp [signLoop, hv]
    | true =>
      cases jf with
      | zero =>
        simp only [List.getElem?_cons_zero, Option.some.injEq] at hjf
        subst hjf
        rw [Nat.add_zero, hv] at hfail
        exact Bool.noConfusion hfail
      | succ jf' =>
        cases j with
        | zero => omega
        | succ j' =>
          have hfail' : verifiesAt m sb shs ((i + 1) + jf') tf = false := by
            have h2 : (i + 1) + jf' = i + (jf' + 1) := by omega
            rw [h2]; exact hfail
          have hrec := ih (i + 1) j' jf' tf (by omega) (by simpa using hjf) hfail'
          simp [signLoop, hv, hrec]

/-- Each transaction in the plan after the `forEach` of `signSwap` is
either its untouched original, or the original formatted with a combined
signature that verified. -/
theorem signLoop_entries (m : MusigOracle) (sb : SignedTx → String) (shs : List String)
    (pk : String) (ts : List SignedTx) :
    ∀ i j (t : SignedTx), ts[j]? = some t →
      (signLoop m sb shs pk i ts).1[j]? = some t ∨
      (verifiesAt m sb shs (i + j) t = true ∧
        (signLoop m sb shs pk i ts).1[j]? =
          some (formatTx t (combinedSigAt m sb shs (i + j) t) pk)) := by
  induction ts with
  | nil => intro i j t hjt; simp at hjt
  | cons t0 rest ih =>
    intro i j t hjt
    cases hv : verifiesAt m sb shs i t0 with
    | false =>
      left
      simp [signLoop, hv, hjt]
    | true =>
      cases j with
      | zero =>
        right
        simp only [List.getElem?_cons_zero, Option.some.injEq] at hjt
        subst hjt
        refine ⟨by simpa using hv, ?_⟩
        simp [signLoop, hv]
      | succ j' =>
        have hrest : rest[j']? = some t := by simpa using hjt
        have h2 : i + (j' + 1) = (i + 1) + j' := by omega
        rcases ih (i + 1) j' t hrest with hL | ⟨hva, hR⟩
        · left; simp [signLoop, hv, hL]
        · right
          rw [h2]
          exact ⟨hva, by simp [signLoop, hv, hR]⟩

/-- C5: if during `signSwap` the combined signature for some transaction
index fails verification against that transaction's signable bytes, then
`signSwap` throws the shares-invalid (Protocol-mismatch) error, the state
stays `prepared`, the plan keeps its length, the failing transaction is
left untouched (no invalid signature is attached to it), and every
transaction of the plan is either untouched or fully formatted with a
signature that verified — no transaction holds an unverified signature and
none is partially mutated. -/
theorem c5_signAbort (p : Party) (m : MusigOracle) (sb : SignedTx → String)
    (cms shs : List String) (i : Nat) (t : SignedTx)
    (hp : p.state = .prepared)
    (hit : p.transactions[i]? = some t)
    (hfail : verifiesAt m sb shs i t = false) :
    (signSwap p m sb cms shs).1 = .error .sharesInvalid ∧
    (signSwap p m sb cms shs).2.state = .prepared ∧
    (signSwap p m sb cms shs).2.transactions.length = p.transactions.length ∧
    (signSwap p m sb cms shs).2.transactions[i]? = some t ∧
    (∀ j (u : SignedTx), p.transactions[j]? = some u →
      (signSwap p m sb cms shs).2.transactions[j]? = some u ∨
      (verifiesAt m sb shs j u = true ∧
        (signSwap p m sb cms shs).2.transactions[j]? =
          some (formatTx u (combinedSigAt m sb shs j u) m.pubkey))) := by
  have hflag : (signLoop m sb shs m.pubkey 0 p.transactions).2.2 = false := by
    cases hx : (signLoop m sb shs m.pubkey 0 p.transactions).2.2 with
    | false => rfl
    | true =>
      have hall := signLoop_ok_all m sb shs m.pubkey p.transactions 0 hx i t hit
      rw [Nat.zero_add] at hall
      rw [hall] at hfail
      exact Bool.noConfusion hfail
  refine ⟨?_, ?_, ?_, ?_, ?_⟩
  · simp [signSwap, hp, hflag]
  · simp [signSwap, hp, hflag]
  · simp [signSwap, hp, hflag, signLoop_length]
  · have hk := signLoop_keep m sb shs m.pubkey p.transactions 0 i i t (le_refl i) hit
      (by rw [Nat.zero_add]; exact hfail)
    have hgoal : (signLoop m sb shs m.pubkey 0 p.transactions).1[i]? = some t := hk.trans hit
    simpa [signSwap, hp, hflag] using hgoal
  · intro j u hju
    have hent := signLoop_entries m sb shs m.pubkey p.transactions 0 j u hju
    rw [Nat.zero_add] at hent
    rcases hent with hL | ⟨hva, hR⟩
    · left; simpa [signSwap, hp, hflag] using hL
    · right; exact ⟨hva, by simpa [signSwap, hp, hflag] using hR⟩

/-- A concrete signer oracle whose combined signature verifies only for
transaction index 0 (the provider corrupted the later shares). -/
def mFailEx : MusigOracle :=
  { precommitments := [], combineCommitments := fun _ => [], pubkey := "agg",
    sign := fun _ _ => "share",
    combineShares := fun _ i => if i = 0 then "good" else "bad",
    verify := fun _ s => s == "good" }

/-- Concrete signable-bytes oracle for evaluation. -/
def sbEx : SignedTx → String := fun _ => "bytes"

/-- A concrete party in state `prepared` holding the evaluation plan. -/
def pPrepEx : Party := { state := .prepared, swapData := some dEx, transactions := sTxsEx }

/-- C5 witness: the sign-abort theorem evaluated at the concrete prepared
party whose combined signature fails verification at index 1. -/
theorem c5_witness :
    (signSwap pPrepEx mFailEx sbEx [] []).1 = .error .sharesInvalid ∧
    (signSwap pPrepEx mFailEx sbEx [] []).2.state = .prepared ∧
    (signSwap pPrepEx mFailEx sbEx [] []).2.transactions.length = pPrepEx.transactions.length ∧
    (signSwap pPrepEx mFailEx sbEx [] []).2.transactions[1]? =
      some (sTxsEx.getD 1 defaultSignedTx) ∧
    (∀ j (u : SignedTx), pPrepEx.transactions[j]? = some u →
      (signSwap pPrepEx mFailEx sbEx [] []).2.transactions[j]? = some u ∨
      (verifiesAt mFailEx sbEx [] j u = true ∧
        (signSwap pPrepEx mFailEx sbEx [] []).2.transactions[j]? =
          some (formatTx u (combinedSigAt mFailEx sbEx [] j u) mFailEx.pubkey))) :=
  c5_signAbort pPrepEx mFailEx sbEx [] [] 1 (sTxsEx.getD 1 defaultSignedTx)
    rfl (by rfl) (by rfl)

/-- C7: each of `prepareSwap` (requires `empty`), `signSwap` (requires
`prepared`), `depositFunds` (requires `signed`), `wait` (requires
`deposited`) and `loadSwap` (requires `empty`) throws the invalid-state
error and returns the party unchanged — state, swap terms and transaction
plan untouched — when invoked in any state other than its precondition
state. -/
theorem c7_preconditionGuards (p : Party) (d : SwapData)
    (clientAddress providerAddress pubKeyHashStr : String) (env : PrepareEnv)
    (m : MusigOracle) (sb : SignedTx → String) (cms shs : List String)
    (depositHash : String) (now : Int) (sha256h : String → String)
    (race : String → Int → RaceOutcome) (stxs : List SignedTx)
    (balances : Option String → String → Nat) :
    (p.state ≠ .empty →
      prepareSwap p d clientAddress providerAddress pubKeyHashStr env =
        (.error .invalidState, p)) ∧
    (p.state ≠ .prepared → signSwap p m sb cms shs = (.error .invalidState, p)) ∧
    (p.state ≠ .signed → depositFunds p depositHash = (.error .invalidState, p)) ∧
    (p.state ≠ .deposited → wait p now sb sha256h race = (.error .invalidState, p)) ∧
    (p.state ≠ .empty → loadSwap p d stxs balances = (.error .invalidState, p)) := by
  refine ⟨?_, ?_, ?_, ?_, ?_⟩ <;> intro h
  · simp [prepareSwap, h]
  · simp [signSwap, h]
  · simp [depositFunds, h]
  · simp [wait, h]
  · simp [loadSwap, h]

/-- A concrete party in the terminal state `finalized`. -/
def pFinEx : Party := { state := .finalized, swapData := some dEx, transactions := sTxsEx }

/-- Concrete external environment for `prepareSwap` evaluation. -/
def envEx : PrepareEnv :=
  { musig := mFailEx, providerPrecommitments := [], swapAccount := acctEx,
    fees := feesEx, resolveTokenId := resolveEx }

/-- C7 witness: all five guards evaluated at a concrete party in state
`finalized`, which satisfies none of the preconditions. -/
theorem c7_witness :
    prepareSwap pFinEx dEx "0xclient" "0xprovider" "pkh" envEx =
      (.error .invalidState, pFinEx) ∧
    signSwap pFinEx mFailEx sbEx [] [] = (.error .invalidState, pFinEx) ∧
    depositFunds pFinEx "txhash" = (.error .invalidState, pFinEx) ∧
    wait pFinEx 0 sbEx (fun s => s) (fun _ _ => .timedOut) = (.error .invalidState, pFinEx) ∧
    loadSwap pFinEx dEx [] (fun _ _ => 0) = (.error .invalidState, pFinEx) :=
  ⟨(c7_preconditionGuards pFinEx dEx "0xclient" "0xprovider" "pkh" envEx mFailEx sbEx
      [] [] "txhash" 0 (fun s => s) (fun _ _ => .timedOut) [] (fun _ _ => 0)).1 (by decide),
   (c7_preconditionGuards pFinEx dEx "0xclient" "0xprovider" "pkh" envEx mFailEx sbEx
      [] [] "txhash" 0 (fun s => s) (fun _ _ => .timedOut) [] (fun _ _ => 0)).2.1 (by decide),
   (c7_preconditionGuards pFinEx dEx "0xclient" "0xprovider" "pkh" envEx mFailEx sbEx
      [] [] "txhash" 0 (fun s => s) (fun _ _ => .timedOut) [] (fun _ _ => 0)).2.2.1 (by decide),
   (c7_preconditionGuards pFinEx dEx "0xclient" "0xprovider" "pkh" envEx mFailEx sbEx
      [] [] "txhash" 0 (fun s => s) (fun _ _ => .timedOut) [] (fun _ _ => 0)).2.2.2.1 (by decide),
   (c7_preconditionGuards pFinEx dEx "0xclient" "0xprovider" "pkh" envEx mFailEx sbEx
      [] [] "txhash" 0 (fun s => s) (fun _ _ => .timedOut) [] (fun _ _ => 0)).2.2.2.2 (by decide)⟩

/-- C8: invoked in state `empty`, `loadSwap` succeeds, restores the given
terms and signed plan, and sets the state to `signed` exactly when the
required sell amount strictly exceeds the committed escrow balance of the
sell token, and to `deposited` otherwise (equality included). -/
theorem c8_loadSwapInference (p : Party) (d : SwapData) (stxs : List SignedTx)
    (balances : Option String → String → Nat) (h : p.state = .empty) :
    (loadSwap p d stxs balances).1 = .ok () ∧
    (loadSwap p d stxs balances).2.swapData = some d ∧
    (loadSwap p d stxs balances).2.transactions = stxs ∧
    (balances ((stxs.getD 0 defaultSignedTx).tx.account) d.sell.token < d.sell.amount →
      (loadSwap p d stxs balances).2.state = .signed) ∧
    (d.sell.amount ≤ balances ((stxs.getD 0 defaultSignedTx).tx.account) d.sell.token →
      (loadSwap p d stxs balances).2.state = .deposited) := by
  refine ⟨?_, ?_, ?_, ?_, ?_⟩
  · simp [loadSwap, h]
  · simp [loadSwap, h]
  · simp [loadSwap, h]
  · intro hb
    simp [loadSwap, h]
    simpa using hb
  · intro hb
    rw [List.getD_eq_getElem?_getD] at hb
    simp [loadSwap, h]
    omega

/-- A concrete party in state `empty`. -/
def pEmptyEx : Party := { state := .empty, swapData := none, transactions := [] }

/-- C8 witness: `loadSwap` evaluated at the concrete empty party with zero
escrow balance, so the required sell amount (1000) strictly exceeds it and
the inferred state is `signed`. -/
theorem c8_witness :
    (loadSwap pEmptyEx dEx sTxsEx (fun _ _ => 0)).1 = .ok () ∧
    (loadSwap pEmptyEx dEx sTxsEx (fun _ _ => 0)).2.swapData = some dEx ∧
    (loadSwap pEmptyEx dEx sTxsEx (fun _ _ => 0)).2.transactions = sTxsEx ∧
    (loadSwap pEmptyEx dEx sTxsEx (fun _ _ => 0)).2.state = .signed :=
  ⟨(c8_loadSwapInference pEmptyEx dEx sTxsEx (fun _ _ => 0) rfl).1,
   (c8_loadSwapInference pEmptyEx dEx sTxsEx (fun _ _ => 0) rfl).2.1,
   (c8_loadSwapInference pEmptyEx dEx sTxsEx (fun _ _ => 0) rfl).2.2.1,
   (c8_loadSwapInference pEmptyEx dEx sTxsEx (fun _ _ => 0) rfl).2.2.2.1 (by decide)⟩

/-- C9: in state `deposited`, `wait` races the ledger notification for the
hash of transaction 1's signable bytes against a timer for the remaining
`timeout * 1000 - now` milliseconds: if the notification resolves first
the state becomes `finalized` and `wait` returns `true`; if the timer
resolves first `wait` returns `false` without error and the state remains
`deposited`. -/
theorem c9_waitRace (p : Party) (d : SwapData) (now : Int) (sb : SignedTx → String)
    (sha256h : String → String) (race : String → Int → RaceOutcome)
    (hp : p.state = .deposited) (hd : p.swapData = some d) :
    (race (sha256h (sb (p.transactions.getD 1 defaultSignedTx)))
        ((d.timeout : Int) * 1000 - now) = .event →
      wait p now sb sha256h race = (.ok true, { p with state := .finalized })) ∧
    (race (sha256h (sb (p.transactions.getD 1 defaultSignedTx)))
        ((d.timeout : Int) * 1000 - now) = .timedOut →
      wait p now sb sha256h race = (.ok false, p) ∧
      (wait p now sb sha256h race).2.state = .deposited) := by
  constructor
  · intro hr
    rw [List.getD_eq_getElem?_getD] at hr
    simp [wait, hp, hd, hr]
  · intro hr
    rw [List.getD_eq_getElem?_getD] at hr
    have hw : wait p now sb sha256h race = (.ok false, p) := by
      simp [wait, hp, hd, hr]
    exact ⟨hw, by rw [hw]; exact hp⟩

/-- C9 witness: both race outcomes evaluated at the concrete deposited
party (an always-event race and an always-timeout race). -/
theorem c9_witness :
    wait pDepEx 0 sbEx (fun s => s) (fun _ _ => .event) =
      (.ok true, { pDepEx with state := .finalized }) ∧
    (wait pDepEx 0 sbEx (fun s => s) (fun _ _ => .timedOut) = (.ok false, pDepEx) ∧
     (wait pDepEx 0 sbEx (fun s => s) (fun _ _ => .timedOut)).2.state = .deposited) :=
  ⟨(c9_waitRace pDepEx dEx 0 sbEx (fun s => s) (fun _ _ => .event) rfl rfl).1 rfl,
   (c9_waitRace pDepEx dEx 0 sbEx (fun s => s) (fun _ _ => .timedOut) rfl rfl).2 rfl⟩

/-- `transpose` on a non-empty matrix: value, length and entries, fully
characterised (the entry at column index `i` is the `i`-th projection of
every row). -/
theorem transpose_cons_spec {α : Type} (x : List α) (xs : List (List α)) :
    ∃ P, transpose (x :: xs) = some P ∧ P.length = x.length ∧
      (∀ i, i < x.length → P[i]? = some ((x :: xs).map (fun row => row[i]?))) := by
  refine ⟨_, rfl, by simp, ?_⟩
  intro i hi
  simp [List.getElem?_map, List.getElem?_range, hi]

/-- C10 (amended): for every non-empty rectangular matrix with at least
one column, `transpose` succeeds; the result has as many rows as the
matrix has columns; its entry at `(i, j)` is the matrix's entry at
`(j, i)`; `transpose` applied twice returns the original matrix (each
entry wrapped by the model's defined-value constructors); and in the
two-row case `transpose [A, B]` has `[A[i], B[i]]` at every in-range
index `i`.  (With zero columns the first `transpose` returns the empty
matrix and the second throws, see the counterexample.) -/
theorem c10_transposeProps (α : Type) (m : List (List α)) (w : Nat)
    (hm : m ≠ []) (hrect : ∀ r ∈ m, r.length = w) :
    ∃ P, transpose m = some P ∧
      P.length = w ∧
      (∀ i j, i < w → j < m.length →
        ∃ row a, m[j]? = some row ∧ row[i]? = some a ∧
          P[i]?.bind (fun col => col[j]?) = some (some a)) ∧
      (0 < w →
        transpose P = some (m.map (fun row => row.map (fun a => some (some a))))) ∧
      (∀ (A B : List α) (i : Nat) (a b : α), A[i]? = some a → B[i]? = some b →
        (transpose [A, B]).bind (fun Q => Q[i]?) = some [some a, some b]) := by
  obtain ⟨r, rest, rfl⟩ := List.exists_cons_of_ne_nil hm
  have hr : r.length = w := hrect r (List.mem_cons_self r rest)
  obtain ⟨P, hPeq, hPlen, hPent⟩ := transpose_cons_spec r rest
  rw [hr] at hPlen
  refine ⟨P, hPeq, hPlen, ?_, ?_, ?_⟩
  · intro i j hi hj
    have hi' : i < r.length := by rw [hr]; exact hi
    have hrowj : (r :: rest)[j]? = some ((r :: rest)[j]) := List.getElem?_eq_getElem hj
    have hrl : ((r :: rest)[j]).length = w := hrect _ (List.getElem_mem hj)
    have hia : i < ((r :: rest)[j]).length := by rw [hrl]; exact hi
    refine ⟨(r :: rest)[j], ((r :: rest)[j])[i], hrowj,
      List.getElem?_eq_getElem hia, ?_⟩
    rw [hPent i hi', Option.some_bind, List.getElem?_map, hrowj, Option.map_some',
      List.getElem?_eq_getElem hia]
  · intro hw
    have hPne : P ≠ [] := by
      intro hnil
      rw [hnil] at hPlen
      simp at hPlen
      omega
    obtain ⟨q, Qt, rfl⟩ := List.exists_cons_of_ne_nil hPne
    have hq : q = (r :: rest).map (fun row => row[0]?) := by
      have h0 := hPent 0 (by rw [hr]; exact hw)
      simpa using h0
    obtain ⟨Q, hQeq, hQlen, hQent⟩ := transpose_cons_spec q Qt
    rw [hQeq]
    refine congrArg some ?_
    have hqlen : q.length = (r :: rest).length := by rw [hq]; simp
    apply List.ext_getElem?
    intro j
    by_cases hj : j < (r :: rest).length
    · have hQj := hQent j (by rw [hqlen]; exact hj)
      rw [hQj]
      have hrowj : (r :: rest)[j]? = some ((r :: rest)[j]) := List.getElem?_eq_getElem hj
      rw [List.getElem?_map, hrowj, Option.map_some']
      refine congrArg some ?_
      have hrl : ((r :: rest)[j]).length = w := hrect _ (List.getElem_mem hj)
      apply List.ext_getElem?
      intro i
      by_cases hi : i < w
      · have hP_i := hPent i (by rw [hr]; exact hi)
        have hia : i < ((r :: rest)[j]).length := by rw [hrl]; exact hi
        rw [List.getElem?_map, hP_i, Option.map_some', List.getElem?_map, hrowj,
          Option.map_some']
        simp [List.getElem?_map, hrowj, List.getElem?_eq_getElem hia]
      · have hi1 : ((q :: Qt).map (fun prow => prow[j]?)).length ≤ i := by
          rw [List.length_map, hPlen]
          omega
        have hi2 : (((r :: rest)[j]).map (fun a => some (some a))).length ≤ i := by
          rw [List.length_map, hrl]
          omega
        rw [List.getElem?_eq_none hi1, List.getElem?_eq_none hi2]
    · have hq1 : Q.length ≤ j := by
        rw [hQlen, hqlen]
        omega
      have hq2 : ((r :: rest).map (fun row => row.map (fun a => some (some a)))).length ≤ j := by
        rw [List.length_map]
        omega
      rw [List.getElem?_eq_none hq1, List.getElem?_eq_none hq2]
  · intro A B i a b ha hb
    have hiA : i < A.length := by
      by_contra hcon
      rw [List.getElem?_eq_none (by omega)] at ha
      exact Option.noConfusion ha
    obtain ⟨Q2, hQ2eq, hQ2len, hQ2ent⟩ := transpose_cons_spec A [B]
    rw [hQ2eq, Option.some_bind, hQ2ent i hiA]
    simp [ha, hb]

/-- C10 counterexample: `[[]]` is a non-empty rectangular matrix (one row,
zero columns), its transpose is the empty matrix, and transposing again
throws (`matrix[0]` is `undefined`), so `transpose (transpose [[]])` does
not return `[[]]` as the claim requires. -/
theorem c10_cex :
    transpose [([] : List Nat)] = some [] ∧
    (transpose [([] : List Nat)]).bind transpose = none ∧
    (none : Option (List (List (Option (Option Nat))))) ≠
      some ([([] : List Nat)].map (fun row => row.map (fun a => some (some a)))) :=
  ⟨rfl, rfl, by simp⟩

/-- C10 witness: the amended transpose properties instantiated at the
concrete 2-by-2 matrix `[[1, 2], [3, 4]]`. -/
theorem c10_witness :
    ∃ P, transpose [[1, 2], [3, 4]] = some P ∧
      P.length = 2 ∧
      (∀ i j, i < 2 → j < ([[1, 2], [3, 4]] : List (List Nat)).length →
        ∃ row a, ([[1, 2], [3, 4]] : List (List Nat))[j]? = some row ∧ row[i]? = some a ∧
          P[i]?.bind (fun col => col[j]?) = some (some a)) ∧
      (0 < 2 →
        transpose P =
          some (([[1, 2], [3, 4]] : List (List Nat)).map
            (fun row => row.map (fun a => some (some a))))) ∧
      (∀ (A B : List Nat) (i : Nat) (a b : Nat), A[i]? = some a → B[i]? = some b →
        (transpose [A, B]).bind (fun Q => Q[i]?) = some [some a, some b]) :=
  c10_transposeProps Nat [[1, 2], [3, 4]] 2 (by decide) (by decide)
